import Mathlib

/-!
# Product storage layer

A shallow embedding of `backend/storage/product.go`: the `ProductDB` repository with its
operations `List`, `GetByID`, `Update`, `UpdateInventory`, `Delete` and `Search`.

The Go code builds statements through an object-relational mapper and runs them on a
relational engine.  The embedding keeps both halves apart:

* the statement a method builds is a value of `Query` (the `Where`, `Order`, `Limit` and
  `Offset` clauses in the order the method adds them);
* the engine is a function from the rows of the `products` table to the answer of the statement
  (`Query.Count`, `Query.Find`, `Query.First`, `Query.Exec`, `Query.Update`).

Integers of the Go code are `Int`.  The only arithmetic is `offset + len(products)`; the number
of rows returned never exceeds the number of rows of the table, so the sum stays in range
whenever the table fits the engine and no wrap-around is modelled.
-/

namespace Storage

/-! ## The model package -/

/-- Modelled from the spec: the type `models.Category` of the absent `models` package, a string
type whose six constants are the category enumeration of the spec. -/
abbrev Category := String

/-- Modelled from the spec: the constant `models.CategoryElectronics`. -/
def CategoryElectronics : Category := "electronics"
/-- Modelled from the spec: the constant `models.CategoryClothing`. -/
def CategoryClothing : Category := "clothing"
/-- Modelled from the spec: the constant `models.CategoryHome`. -/
def CategoryHome : Category := "home"
/-- Modelled from the spec: the constant `models.CategoryBooks`. -/
def CategoryBooks : Category := "books"
/-- Modelled from the spec: the constant `models.CategoryToys`. -/
def CategoryToys : Category := "toys"
/-- Modelled from the spec: the constant `models.CategoryMisc`. -/
def CategoryMisc : Category := "misc"

/-- Modelled from the spec: the struct `models.Product` of the absent `models` package, one field
per column of the `products` table.  The price is a decimal counted in its smallest unit, the
timestamps are instants counted from a fixed origin.  `updated_at` is a tracked update time: a
caller does not set it, and the object-relational mapper writes the instant of the call to it in
every update statement that does not omit the column. -/
structure Product where
  id : Int
  name : String
  description : String
  category : Category
  price : Int
  inventory : Int
  is_deleted : Bool
  created_at : Int
  updated_at : Int
deriving DecidableEq, Repr

/-- The errors the repository returns: the two `fmt.Errorf` values of `List`,
`gorm.ErrRecordNotFound`, and an error raised by the storage engine itself. -/
inductive Error where
  | InvalidFilter (filter : String)
  | InvalidSort (sort : String)
  | ErrRecordNotFound
  | StorageFailure (msg : String)
deriving DecidableEq, Repr

/-! ## Statements and the engine -/

/-- The conditions the methods pass to `Where`. -/
inductive Cond where
  /-- The text `is_deleted = false`. -/
  | isDeletedFalse
  /-- The text `category = ?` with its argument. -/
  | categoryEq (v : String)
  /-- The text `inventory > 0`. -/
  | inventoryPositive
  /-- The text `id = ?` with its argument. -/
  | idEq (v : Int)
deriving DecidableEq, Repr

/-- The columns the methods order by. -/
inductive Column where
  | name
  | price
  | updated_at
  | id
deriving DecidableEq, Repr

/-- One `Order` clause: a column and its direction (`DESC` when `desc` is true). -/
structure OrderBy where
  column : Column
  desc : Bool
deriving DecidableEq, Repr

/-- A statement under construction: the clauses in the order they were added. -/
structure Query where
  wheres : List Cond
  orders : List OrderBy
  limit : Option Int
  offset : Option Int
deriving Repr

/-- The statement `Model(&models.Product{})`: no clause yet. -/
def Query.Model : Query := ⟨[], [], none, none⟩

/-- The method `Where`: one more condition, joined by AND. -/
def Query.Where (q : Query) (c : Cond) : Query := { q with wheres := q.wheres ++ [c] }

/-- The method `Order`: one more ordering term, after the terms already present. -/
def Query.Order (q : Query) (o : OrderBy) : Query := { q with orders := q.orders ++ [o] }

/-- The method `Limit`. -/
def Query.Limit (q : Query) (n : Int) : Query := { q with limit := some n }

/-- The method `Offset`. -/
def Query.Offset (q : Query) (n : Int) : Query := { q with offset := some n }

/-- Whether a row satisfies a condition. -/
def Cond.eval : Cond → Product → Bool
  | .isDeletedFalse, r => r.is_deleted == false
  | .categoryEq v, r => r.category == v
  | .inventoryPositive, r => decide (r.inventory > 0)
  | .idEq v, r => r.id == v

/-- Whether a row satisfies every condition of the statement. -/
def Query.selects (q : Query) (r : Product) : Bool := q.wheres.all fun c => c.eval r

/-- Row `a` is strictly before row `b` on a column, ascending.  Names compare as strings,
character by character (the order `<` of `String`, decided on the lists of characters). -/
def Column.before : Column → Product → Product → Bool
  | .name, a, b => decide (a.name.data < b.name.data)
  | .price, a, b => decide (a.price < b.price)
  | .updated_at, a, b => decide (a.updated_at < b.updated_at)
  | .id, a, b => decide (a.id < b.id)

/-- Row `a` is strictly before row `b` for one ordering term. -/
def OrderBy.before (o : OrderBy) (a b : Product) : Bool :=
  if o.desc then o.column.before b a else o.column.before a b

/-- The order of an `ORDER BY` list: the first term that separates two rows decides; rows no
term separates are tied. -/
def orderLE : List OrderBy → Product → Product → Bool
  | [], _, _ => true
  | o :: os, a, b =>
    if o.before a b then true
    else if o.before b a then false
    else orderLE os a b

/-- Insertion of a row into a list already in order. -/
def insertRow (le : Product → Product → Bool) (a : Product) : List Product → List Product
  | [] => [a]
  | b :: l => if le a b then a :: b :: l else b :: insertRow le a l

/-- The engine's sort: rows the order ties keep the position the table gives them. -/
def sortRows (le : Product → Product → Bool) : List Product → List Product
  | [] => []
  | a :: l => insertRow le a (sortRows le l)

/-- The finisher `Count`: the number of rows the conditions select (ordering terms play no part
in a count). -/
def Query.Count (q : Query) (rows : List Product) : Int :=
  ((rows.filter q.selects).length : Nat)

/-- The finisher `Find`: the selected rows, in order, without the first `offset` of them and cut
to `limit` rows.  A negative limit writes no `LIMIT` clause. -/
def Query.Find (q : Query) (rows : List Product) : List Product :=
  let sorted := sortRows (orderLE q.orders) (rows.filter q.selects)
  let skipped :=
    match q.offset with
    | some n => sorted.drop n.toNat
    | none => sorted
  match q.limit with
  | some n => if n < 0 then skipped else skipped.take n.toNat
  | none => skipped

/-- The repository: the `products` table both handles are connected to, for each handle the
failure the engine answers its statements with, if any (`none`: the handle works), and the
instant the clock of the object-relational mapper reads when a method runs a statement.  A
failure of a handle reaches the caller as `Error.StorageFailure`. -/
structure ProductDB where
  products : List Product
  read : Option String
  write : Option String
  now : Int
deriving Repr

/-- What `List` returns: the page, the total, the next offset and the error. -/
structure ListResult where
  products : List Product
  total : Int
  nextOffset : Int
  err : Option Error
deriving DecidableEq, Repr

/-- The filter switch of `List` (lines 36-50): a category value adds `category = ?`, the token
`in_stock` adds `inventory > 0`, any other non-empty value is an error. -/
def listFilter (query : Query) (filter : String) : Except Error Query :=
  if filter ≠ "" then
    if filter = CategoryElectronics ∨ filter = CategoryClothing ∨ filter = CategoryHome ∨
        filter = CategoryBooks ∨ filter = CategoryToys ∨ filter = CategoryMisc then
      .ok (query.Where (.categoryEq filter))
    else if filter = "in_stock" then
      .ok (query.Where .inventoryPositive)
    else
      .error (.InvalidFilter filter)
  else
    .ok query

/-- The sort switch of `List` (lines 52-65). -/
def listSort (query : Query) (sort direction : String) : Except Error Query :=
  if sort ≠ "" then
    let dir := if direction = "desc" then true else false
    if sort = "name" then
      .ok (query.Order ⟨.name, dir⟩)
    else if sort = "price" then
      .ok (query.Order ⟨.price, dir⟩)
    else
      .error (.InvalidSort sort)
  else
    .ok query

/-- The page clauses of `List` (lines 73-77): the two tiebreak terms, the limit, and the offset
when it is positive. -/
def listPage (query : Query) (limit offset : Int) : Query :=
  let query := ((query.Order ⟨.updated_at, true⟩).Order ⟨.id, false⟩).Limit limit
  if offset > 0 then query.Offset offset else query

/-- The method `List` (lines 32-86). -/
def ProductDB.List (p : ProductDB) (limit offset : Int) (sort filter direction : String) :
    ListResult :=
  let query := Query.Model.Where .isDeletedFalse
  match listFilter query filter with
  | .error e => ⟨[], 0, 0, some e⟩
  | .ok query =>
    match listSort query sort direction with
    | .error e => ⟨[], 0, 0, some e⟩
    | .ok query =>
      -- count total products
      match p.read with
      | some e => ⟨[], 0, 0, some (.StorageFailure e)⟩
      | none =>
        let total := query.Count p.products
        let query := listPage query limit offset
        match p.read with
        | some e => ⟨[], 0, 0, some (.StorageFailure e)⟩
        | none =>
          let products := query.Find p.products
          let nextOffset := offset + (products.length : Nat)
          ⟨products, total, nextOffset, none⟩

/-- The finisher `First`: the first selected row by primary key, or `gorm.ErrRecordNotFound`
when the conditions select no row. -/
def Query.First (q : Query) (rows : List Product) : Except Error Product :=
  match ((q.Order ⟨.id, false⟩).Limit 1).Find rows with
  | [] => .error .ErrRecordNotFound
  | r :: _ => .ok r

/-- The method `GetByID` (lines 88-94): the product, or the error. -/
def ProductDB.GetByID (p : ProductDB) (id : Int) : Except Error Product :=
  match p.read with
  | some e => .error (.StorageFailure e)
  | none => (Query.Model.Where (.idEq id)).First p.products

/-- One assignment of the `SET` clause of an update statement. -/
inductive Assignment where
  | id (v : Int)
  | name (v : String)
  | description (v : String)
  | category (v : Category)
  | price (v : Int)
  | inventory (v : Int)
  | is_deleted (v : Bool)
  | created_at (v : Int)
  | updated_at (v : Int)
deriving DecidableEq, Repr

/-- The name of the column an assignment writes. -/
def Assignment.column : Assignment → String
  | .id _ => "id"
  | .name _ => "name"
  | .description _ => "description"
  | .category _ => "category"
  | .price _ => "price"
  | .inventory _ => "inventory"
  | .is_deleted _ => "is_deleted"
  | .created_at _ => "created_at"
  | .updated_at _ => "updated_at"

/-- The row after one assignment. -/
def Assignment.apply : Assignment → Product → Product
  | .id v, r => { r with id := v }
  | .name v, r => { r with name := v }
  | .description v, r => { r with description := v }
  | .category v, r => { r with category := v }
  | .price v, r => { r with price := v }
  | .inventory v, r => { r with inventory := v }
  | .is_deleted v, r => { r with is_deleted := v }
  | .created_at v, r => { r with created_at := v }
  | .updated_at v, r => { r with updated_at := v }

/-- The finisher that runs an update statement: every row the conditions select gets the
assignments, in order; the second component is the number of rows affected.  The engine is the
one whose `similarity` function the statement of `Search` calls, and it counts every row the
conditions select, whether or not a value changes.  A statement with an empty `SET` clause is
not run and affects no row. -/
def Query.Exec (q : Query) (set : List Assignment) (rows : List Product) : List Product × Int :=
  if set.isEmpty then (rows, 0)
  else
    (rows.map fun r => if q.selects r then set.foldl (fun r a => a.apply r) r else r,
      ((rows.filter q.selects).length : Nat))

/-- The finisher `Update(column, value)`: an update statement whose `SET` clause holds the
assignment to the column and, the model tracking its update time and the statement omitting no
column, the assignment of the instant of the call to `updated_at`. -/
def Query.Update (q : Query) (a : Assignment) (now : Int) (rows : List Product) :
    List Product × Int :=
  q.Exec [a, .updated_at now] rows

/-- The assignments `Updates(product)` derives from a struct: one for each field that does not
hold the zero value of its type, and the instant of the call for the tracked `updated_at`,
whatever the struct holds there. -/
def structAssignments (now : Int) (product : Product) : List Assignment :=
  (if product.id ≠ 0 then [Assignment.id product.id] else []) ++
  (if product.name ≠ "" then [Assignment.name product.name] else []) ++
  (if product.description ≠ "" then [Assignment.description product.description] else []) ++
  (if product.category ≠ "" then [Assignment.category product.category] else []) ++
  (if product.price ≠ 0 then [Assignment.price product.price] else []) ++
  (if product.inventory ≠ 0 then [Assignment.inventory product.inventory] else []) ++
  (if product.is_deleted ≠ false then [Assignment.is_deleted product.is_deleted] else []) ++
  (if product.created_at ≠ 0 then [Assignment.created_at product.created_at] else []) ++
  [Assignment.updated_at now]

/-- The method `Omit`: the assignments to the named columns are left out. -/
def Omit (columns : List String) (set : List Assignment) : List Assignment :=
  set.filter fun a => !columns.contains a.column

/-- What `Update` returns and leaves behind: the returned pointer (`none` is `nil`), the error,
the caller's struct after the call (the method writes through the pointer it was given), and the
repository after the call. -/
structure UpdateResult where
  updatedProduct : Option Product
  err : Option Error
  product : Product
  db : ProductDB
deriving Repr

/-- The method `Update` (lines 96-112).  The re-read of line 107 has the caller's `product` as its
destination; the variable `updatedProduct` declared on line 106 is returned as declared. -/
def ProductDB.Update (p : ProductDB) (product : Product) : UpdateResult :=
  match p.write with
  | some e => ⟨none, some (.StorageFailure e), product, p⟩
  | none =>
    let result := (Query.Model.Where (.idEq product.id)).Exec
      (Omit ["created_at", "updated_at"] (structAssignments p.now product)) p.products
    let p := { p with products := result.1 }
    if result.2 = 0 then ⟨none, some .ErrRecordNotFound, product, p⟩
    else
      let updatedProduct : Option Product := none
      match p.read with
      | some e => ⟨none, some (.StorageFailure e), product, p⟩
      | none =>
        match (Query.Model.Where (.idEq product.id)).First p.products with
        | .error e => ⟨none, some e, product, p⟩
        | .ok row => ⟨updatedProduct, none, row, p⟩

/-- What a method that only writes returns and leaves behind: the error and the repository after
the call. -/
structure WriteResult where
  err : Option Error
  db : ProductDB
deriving Repr

/-- The method `UpdateInventory` (lines 114-125). -/
def ProductDB.UpdateInventory (p : ProductDB) (id : Int) (inventory : Int) : WriteResult :=
  match p.write with
  | some e => ⟨some (.StorageFailure e), p⟩
  | none =>
    let result := (Query.Model.Where (.idEq id)).Update (.inventory inventory) p.now p.products
    let p := { p with products := result.1 }
    if result.2 = 0 then ⟨some .ErrRecordNotFound, p⟩
    else ⟨none, p⟩

/-- The method `Delete` (lines 127-138). -/
def ProductDB.Delete (p : ProductDB) (id : Int) : WriteResult :=
  match p.write with
  | some e => ⟨some (.StorageFailure e), p⟩
  | none =>
    let result := (Query.Model.Where (.idEq id)).Update (.is_deleted true) p.now p.products
    let p := { p with products := result.1 }
    if result.2 = 0 then ⟨some .ErrRecordNotFound, p⟩
    else ⟨none, p⟩

/-- The `GREATEST` of the three scores of a row, the ranking key of `Search`. -/
def greatest (similarity : String → String → ℚ) (category_to_text : Category → String)
    (query : String) (r : Product) : ℚ :=
  max (max (similarity r.name query) (similarity r.description query))
    (similarity (category_to_text r.category) query)

/-- The `WHERE` clause of the statement of `Search` (lines 145-151). -/
def searchWhere (similarity : String → String → ℚ) (category_to_text : Category → String)
    (query : String) (r : Product) : Bool :=
  (decide (similarity r.name query ≥ 1 / 10) ||
    decide (similarity r.description query ≥ 1 / 10) ||
    decide (similarity (category_to_text r.category) query ≥ 4 / 10)) &&
  (r.is_deleted == false)

/-- What `Search` returns: the products and the error. -/
structure SearchResult where
  products : List Product
  err : Option Error
deriving Repr

/-- The method `Search` (lines 140-162).  The two functions of the engine the statement calls,
`similarity` and `category_to_text`, are parameters. -/
def ProductDB.Search (similarity : String → String → ℚ) (category_to_text : Category → String)
    (p : ProductDB) (query : String) : SearchResult :=
  match p.read with
  | some e => ⟨[], some (.StorageFailure e)⟩
  | none =>
    ⟨sortRows
      (fun a b => decide (greatest similarity category_to_text query a ≥
        greatest similarity category_to_text query b))
      (p.products.filter (searchWhere similarity category_to_text query)), none⟩

/-! ## The properties, in the words of the specification -/

/-- The six category values of the specification. -/
def categoryValues : List String := ["electronics", "clothing", "home", "books", "toys", "misc"]

/-- The filter values the specification accepts besides the empty one: the six category values
and the token `in_stock`. -/
def filterTokens : List String := categoryValues ++ ["in_stock"]

/-- A row of the filtered set of the specification: not deleted, and any row when the filter is
empty, a row with inventory above zero for `in_stock`, a row of that category otherwise. -/
def inFilteredSet (filter : String) (r : Product) : Bool :=
  !r.is_deleted &&
    (if filter = "" then true
     else if filter = "in_stock" then decide (r.inventory > 0)
     else r.category == filter)

/-- Row `a` is strictly before row `b` on the sort key of the specification, ascending: by name
for `name`, by price for `price`; no other value orders rows. -/
def keyBefore (sort : String) (a b : Product) : Prop :=
  if sort = "name" then a.name < b.name
  else if sort = "price" then a.price < b.price
  else False

/-- Row `a` is strictly before row `b` on the requested sort: descending when the direction is
exactly `desc`, ascending otherwise. -/
def sortBefore (sort direction : String) (a b : Product) : Prop :=
  if direction = "desc" then keyBefore sort b a else keyBefore sort a b

/-- The order of the specification: the requested sort first, then `updated_at` descending, then
`id` ascending. -/
def listOrder (sort direction : String) (a b : Product) : Prop :=
  sortBefore sort direction a b ∨
    (¬ sortBefore sort direction b a ∧
      (b.updated_at < a.updated_at ∨ (a.updated_at = b.updated_at ∧ a.id ≤ b.id)))

/-- The `ORDER BY` list of a call of `List` that passes the sort switch: the requested term, if
any, then the two tiebreak terms. -/
def listOrders (sort direction : String) : List OrderBy :=
  (if sort = "name" then [⟨.name, decide (direction = "desc")⟩]
   else if sort = "price" then [⟨.price, decide (direction = "desc")⟩]
   else []) ++ [⟨.updated_at, true⟩, ⟨.id, false⟩]

/-- The rows of the filtered set in the order of `List`: what a call of `List` pages through. -/
def listRows (rows : List Product) (sort filter direction : String) : List Product :=
  sortRows (orderLE (listOrders sort direction)) (rows.filter (inFilteredSet filter))

/-- The caller's loop of the pagination property: call `List` at offset 0, pass each call's
next offset to the next call, and stop at the first call that returns fewer than `limit` rows.
`scan k` is the repository as call `k` finds it; the result is the list of pages, or `none` when
a call fails or the calls allowed by `fuel` are used up before the loop stops. -/
def listAll (scan : Nat → ProductDB) (limit : Int) (sort filter direction : String) :
    Nat → Nat → Int → Option (List (List Product))
  | 0, _, _ => none
  | fuel + 1, call, offset =>
    match (scan call).List limit offset sort filter direction with
    | ⟨_, _, _, some _⟩ => none
    | ⟨products, _, nextOffset, none⟩ =>
      if (products.length : Int) < limit then some [products]
      else
        (listAll scan limit sort filter direction fuel (call + 1) nextOffset).map
          fun pages => products :: pages

/-- A row `Search` returns, in the words of the specification: not deleted, and the similarity
of the query to the name, to the description or to the text of the category exceeds its
threshold. -/
def searchExceeds (similarity : String → String → ℚ) (category_to_text : Category → String)
    (query : String) (r : Product) : Prop :=
  r.is_deleted = false ∧
    (similarity r.name query > 1 / 10 ∨ similarity r.description query > 1 / 10 ∨
      similarity (category_to_text r.category) query > 4 / 10)

/-- As `searchExceeds`, with thresholds that are reached or exceeded. -/
def searchReaches (similarity : String → String → ℚ) (category_to_text : Category → String)
    (query : String) (r : Product) : Prop :=
  r.is_deleted = false ∧
    (similarity r.name query ≥ 1 / 10 ∨ similarity r.description query ≥ 1 / 10 ∨
      similarity (category_to_text r.category) query ≥ 4 / 10)

instance (similarity : String → String → ℚ) (category_to_text : Category → String)
    (query : String) (r : Product) :
    Decidable (searchReaches similarity category_to_text query r) := by
  unfold searchReaches
  infer_instance

/-! ## Sample data -/

/-- A book in stock. -/
def sampleBook : Product := ⟨1, "atlas", "maps of the world", "books", 500, 3, false, 10, 10⟩
/-- A toy out of stock. -/
def sampleToy : Product := ⟨2, "kite", "flies", "toys", 500, 0, false, 20, 20⟩
/-- A deleted book. -/
def sampleGone : Product := ⟨3, "almanac", "old", "books", 700, 2, true, 30, 30⟩

/-- A repository of three rows with both handles working, at instant 100. -/
def sampleDB : ProductDB := ⟨[sampleBook, sampleToy, sampleGone], none, none, 100⟩

/-- The same rows behind a write handle that fails. -/
def brokenDB : ProductDB := ⟨[sampleBook, sampleToy, sampleGone], none, some "connection lost", 100⟩

/-- An update payload: id 1 and a new price, every other field at its zero value. -/
def samplePatch : Product := ⟨1, "", "", "", 900, 0, false, 0, 0⟩

/-- A similarity score: 1 for equal strings, one tenth between `atlas` and any other string,
0 otherwise. -/
def sampleSimilarity (s q : String) : ℚ :=
  if s = q then 1 else if s = "atlas" then 1 / 10 else 0

/-- A repository of 15 products in stock and one out of stock. -/
def stockDB : ProductDB :=
  ⟨sampleToy :: (List.range 15).map fun i =>
    ⟨10 + i, "item", "", "misc", 100 + i, 1, false, 0, 0⟩, none, none, 100⟩

/-! ## The engine's sort -/

theorem insertRow_perm (le : Product → Product → Bool) (a : Product) (l : List Product) :
    (insertRow le a l).Perm (a :: l) := by
  induction l with
  | nil => exact List.Perm.refl _
  | cons b l ih =>
    unfold insertRow
    split
    · exact List.Perm.refl _
    · exact (List.Perm.cons b ih).trans (List.Perm.swap a b l)

theorem sortRows_perm (le : Product → Product → Bool) (l : List Product) :
    (sortRows le l).Perm l := by
  induction l with
  | nil => exact List.Perm.refl _
  | cons a l ih =>
    unfold sortRows
    exact (insertRow_perm le a _).trans (List.Perm.cons a ih)

theorem mem_sortRows (le : Product → Product → Bool) (l : List Product) (x : Product) :
    x ∈ sortRows le l ↔ x ∈ l :=
  (sortRows_perm le l).mem_iff

theorem insertRow_pairwise (le : Product → Product → Bool)
    (total : ∀ a b, le a b = true ∨ le b a = true)
    (trans : ∀ a b c, le a b = true → le b c = true → le a c = true)
    (a : Product) (l : List Product) (h : l.Pairwise fun x y => le x y = true) :
    (insertRow le a l).Pairwise fun x y => le x y = true := by
  induction l with
  | nil => simp [insertRow]
  | cons b l ih =>
    rw [List.pairwise_cons] at h
    unfold insertRow
    split
    · rename_i hab
      rw [List.pairwise_cons]
      refine ⟨?_, List.pairwise_cons.2 h⟩
      intro x hx
      rcases List.mem_cons.1 hx with rfl | hx
      · exact hab
      · exact trans _ _ _ hab (h.1 x hx)
    · rename_i hab
      have hba : le b a = true := by
        rcases total a b with h1 | h1
        · exact absurd h1 hab
        · exact h1
      rw [List.pairwise_cons]
      refine ⟨?_, ih h.2⟩
      intro x hx
      rcases List.mem_cons.1 ((insertRow_perm le a l).subset hx) with rfl | hx
      · exact hba
      · exact h.1 x hx

theorem sortRows_pairwise (le : Product → Product → Bool)
    (total : ∀ a b, le a b = true ∨ le b a = true)
    (trans : ∀ a b c, le a b = true → le b c = true → le a c = true)
    (l : List Product) : (sortRows le l).Pairwise fun x y => le x y = true := by
  induction l with
  | nil => simp [sortRows]
  | cons a l ih =>
    unfold sortRows
    exact insertRow_pairwise le total trans a _ ih

/-! ## The order of an `ORDER BY` list -/

theorem column_before_asymm (c : Column) (a b : Product) :
    c.before a b = true → c.before b a = false := by
  cases c <;> simp only [Column.before, decide_eq_true_eq, decide_eq_false_iff_not]
  · intro h
    exact fun h2 => lt_asymm (String.lt_iff_toList_lt.2 h) (String.lt_iff_toList_lt.2 h2)
  all_goals omega

theorem column_before_cotrans (c : Column) (a b x : Product) :
    c.before a b = true → c.before a x = true ∨ c.before x b = true := by
  cases c <;> simp only [Column.before, decide_eq_true_eq]
  · intro h
    exact (LT.lt.lt_or_lt (String.lt_iff_toList_lt.2 h) x.name).imp
      String.lt_iff_toList_lt.1 String.lt_iff_toList_lt.1
  all_goals omega

theorem orderBy_before_asymm (o : OrderBy) (a b : Product) :
    o.before a b = true → o.before b a = false := by
  unfold OrderBy.before
  split <;> exact column_before_asymm _ _ _

theorem orderBy_before_cotrans (o : OrderBy) (a b x : Product) :
    o.before a b = true → o.before a x = true ∨ o.before x b = true := by
  unfold OrderBy.before
  split
  · intro h
    exact (column_before_cotrans _ _ _ x h).symm
  · exact column_before_cotrans _ _ _ x

theorem orderLE_total (os : List OrderBy) (a b : Product) :
    orderLE os a b = true ∨ orderLE os b a = true := by
  induction os with
  | nil => simp [orderLE]
  | cons o os ih =>
    unfold orderLE
    by_cases h1 : o.before a b = true
    · simp [h1]
    · by_cases h2 : o.before b a = true
      · simp [h2]
      · simpa [h1, h2] using ih

theorem orderLE_trans (os : List OrderBy) (a b c : Product) :
    orderLE os a b = true → orderLE os b c = true → orderLE os a c = true := by
  induction os with
  | nil => simp [orderLE]
  | cons o os ih =>
    unfold orderLE
    intro hab hbc
    by_cases h1 : o.before a b = true
    · rcases orderBy_before_cotrans o a b c h1 with h | h
      · simp [h]
      · have := orderBy_before_asymm o c b h
        simp [h, this] at hbc
    · simp only [h1, if_false] at hab
      by_cases h2 : o.before b a = true
      · simp [h2] at hab
      · simp only [h2, if_false] at hab
        by_cases h3 : o.before b c = true
        · rcases orderBy_before_cotrans o b c a h3 with h | h
          · exact absurd h h2
          · simp [h]
        · simp only [h3, if_false] at hbc
          by_cases h4 : o.before c b = true
          · simp [h4] at hbc
          · simp only [h4, if_false] at hbc
            have h5 : ¬ o.before a c = true := fun h =>
              (orderBy_before_cotrans o a c b h).elim h1 h3
            have h6 : ¬ o.before c a = true := fun h =>
              (orderBy_before_cotrans o c a b h).elim h4 h2
            simp only [h5, h6, if_false]
            exact ih hab hbc

/-! ## `List`: what the switches build -/

theorem listFilter_ok {query q : Query} {filter : String}
    (h : listFilter query filter = .ok q) :
    (filter = "" ∨ filter ∈ filterTokens) ∧ q.orders = query.orders ∧
      q.limit = query.limit ∧ q.offset = query.offset ∧
      ∀ r, q.selects r = (query.selects r &&
        (if filter = "" then true
         else if filter = "in_stock" then decide (r.inventory > 0)
         else r.category == filter)) := by
  unfold listFilter at h
  by_cases h0 : filter = ""
  · subst h0
    simp at h
    subst h
    simp
  · simp only [ne_eq, h0, not_false_eq_true, if_true] at h
    split at h
    · rename_i hc
      simp only [Except.ok.injEq] at h
      subst h
      have hs : filter ≠ "in_stock" := by
        rcases hc with rfl | rfl | rfl | rfl | rfl | rfl <;> decide
      refine ⟨Or.inr ?_, rfl, rfl, rfl, ?_⟩
      · rcases hc with rfl | rfl | rfl | rfl | rfl | rfl <;> decide
      · intro r
        simp [Query.selects, Query.Where, Cond.eval, h0, hs]
    · split at h
      · rename_i hs
        simp only [Except.ok.injEq] at h
        subst h
        refine ⟨Or.inr ?_, rfl, rfl, rfl, ?_⟩
        · subst hs; decide
        · intro r
          simp [Query.selects, Query.Where, Cond.eval, h0, hs]
      · simp at h

theorem listSort_ok {query q : Query} {sort direction : String}
    (h : listSort query sort direction = .ok q) :
    (sort = "" ∨ sort = "name" ∨ sort = "price") ∧ q.wheres = query.wheres ∧
      q.limit = query.limit ∧ q.offset = query.offset ∧
      q.orders = query.orders ++
        (if sort = "name" then [⟨.name, decide (direction = "desc")⟩]
         else if sort = "price" then [⟨.price, decide (direction = "desc")⟩]
         else []) := by
  unfold listSort at h
  by_cases h0 : sort = ""
  · subst h0
    simp at h
    subst h
    simp
  · simp only [ne_eq, h0, not_false_eq_true, if_true] at h
    split at h
    · rename_i hn
      simp only [Except.ok.injEq] at h
      subst h
      refine ⟨Or.inr (Or.inl hn), rfl, rfl, rfl, ?_⟩
      by_cases hd : direction = "desc" <;> simp [Query.Order, hn, hd]
    · rename_i hn
      split at h
      · rename_i hp
        simp only [Except.ok.injEq] at h
        subst h
        refine ⟨Or.inr (Or.inr hp), rfl, rfl, rfl, ?_⟩
        by_cases hd : direction = "desc" <;> simp [Query.Order, hn, hp, hd]
      · simp at h

/-- The rows `Find` returns for the page clauses of `List`. -/
theorem Find_listPage (query : Query) (limit offset : Int) (rows : List Product)
    (ho : query.offset = none) :
    (listPage query limit offset).Find rows =
      if limit < 0 then
        (sortRows (orderLE (query.orders ++ [⟨.updated_at, true⟩, ⟨.id, false⟩]))
          (rows.filter query.selects)).drop offset.toNat
      else
        ((sortRows (orderLE (query.orders ++ [⟨.updated_at, true⟩, ⟨.id, false⟩]))
          (rows.filter query.selects)).drop offset.toNat).take limit.toNat := by
  have hsel : ∀ o l f, Query.selects ⟨query.wheres, o, l, f⟩ = query.selects :=
    fun _ _ _ => rfl
  unfold listPage
  by_cases h : offset > 0
  · simp [h, Query.Find, Query.Offset, Query.Limit, Query.Order, hsel]
  · have h0 : offset.toNat = 0 := by omega
    simp [h, Query.Find, Query.Limit, Query.Order, ho, h0, hsel]

/-- A call of `List` without error went through both switches and both statements. -/
theorem List_of_ok {p : ProductDB} {limit offset : Int} {sort filter direction : String}
    (h : (p.List limit offset sort filter direction).err = none) :
    ∃ q1 q2, listFilter (Query.Model.Where .isDeletedFalse) filter = .ok q1 ∧
      listSort q1 sort direction = .ok q2 ∧ p.read = none ∧
      p.List limit offset sort filter direction =
        ⟨(listPage q2 limit offset).Find p.products, q2.Count p.products,
          offset + (((listPage q2 limit offset).Find p.products).length : Nat), none⟩ := by
  unfold ProductDB.List at h ⊢
  cases h1 : listFilter (Query.Model.Where .isDeletedFalse) filter with
  | error e => simp [h1] at h
  | ok q1 =>
    cases h2 : listSort q1 sort direction with
    | error e => simp [h1, h2] at h
    | ok q2 =>
      cases h3 : p.read with
      | some e => simp [h1, h2, h3] at h
      | none => exact ⟨q1, q2, rfl, h2, rfl, by simp [h1, h2]⟩

theorem listFilter_valid (query : Query) {filter : String}
    (hf : filter = "" ∨ filter ∈ filterTokens) : ∃ q1, listFilter query filter = .ok q1 := by
  simp only [filterTokens, categoryValues, List.cons_append, List.nil_append, List.mem_cons,
    List.mem_singleton, List.not_mem_nil, or_false] at hf
  rcases hf with rfl | rfl | rfl | rfl | rfl | rfl | rfl | rfl <;>
    exact ⟨_, by simp [listFilter, CategoryElectronics, CategoryClothing, CategoryHome,
      CategoryBooks, CategoryToys, CategoryMisc]; rfl⟩

theorem listFilter_invalid (query : Query) {filter : String}
    (h0 : filter ≠ "") (hf : filter ∉ filterTokens) :
    listFilter query filter = .error (.InvalidFilter filter) := by
  simp only [filterTokens, categoryValues, List.cons_append, List.nil_append, List.mem_cons,
    List.mem_singleton, List.not_mem_nil, or_false, not_or] at hf
  simp [listFilter, h0, hf, CategoryElectronics, CategoryClothing, CategoryHome,
    CategoryBooks, CategoryToys, CategoryMisc]

theorem listSort_valid (query : Query) {sort : String} (direction : String)
    (hs : sort = "" ∨ sort = "name" ∨ sort = "price") :
    ∃ q2, listSort query sort direction = .ok q2 := by
  rcases hs with rfl | rfl | rfl <;> exact ⟨_, by simp [listSort]; rfl⟩

theorem listSort_invalid (query : Query) {sort : String} (direction : String)
    (h0 : sort ≠ "") (h1 : sort ≠ "name") (h2 : sort ≠ "price") :
    listSort query sort direction = .error (.InvalidSort sort) := by
  simp [listSort, h0, h1, h2]

theorem listSort_error {query : Query} {sort direction : String} {e : Error}
    (h : listSort query sort direction = .error e) : e = .InvalidSort sort := by
  by_cases h0 : sort = ""
  · simp [listSort, h0] at h
  · by_cases h1 : sort = "name"
    · simp [listSort, h1] at h
    · by_cases h2 : sort = "price"
      · simp [listSort, h2] at h
      · simpa [listSort, h0, h1, h2] using h.symm

theorem listFilter_error {query : Query} {filter : String} {e : Error}
    (h : listFilter query filter = .error e) : e = .InvalidFilter filter := by
  unfold listFilter at h
  split at h
  · split at h
    · simp at h
    · split at h
      · simp at h
      · simpa using h.symm
  · simp at h

/-- A call of `List` with an accepted filter and sort on a working read handle has no error. -/
theorem List_err_none (p : ProductDB) (limit offset : Int) (sort filter direction : String)
    (hr : p.read = none) (hf : filter = "" ∨ filter ∈ filterTokens)
    (hs : sort = "" ∨ sort = "name" ∨ sort = "price") :
    (p.List limit offset sort filter direction).err = none := by
  obtain ⟨q1, h1⟩ := listFilter_valid (Query.Model.Where .isDeletedFalse) hf
  obtain ⟨q2, h2⟩ := listSort_valid q1 direction hs
  simp [ProductDB.List, h1, h2, hr]

/-! ## The claims on `List` -/

/-- C1: `List` fails with the invalid-filter error, returning no products, total 0 and next
offset 0, whenever the filter is non-empty and is none of the six category values nor
`in_stock`, whatever the other arguments and the table are; it never fails with the
invalid-filter error when the filter is empty or one of those seven tokens; and the filter
`nonexistent_category` gives the error, not an empty result. -/
theorem List_filter_validation (p : ProductDB) (limit offset : Int)
    (sort filter direction : String) :
    (filter ≠ "" → filter ∉ filterTokens →
      p.List limit offset sort filter direction = ⟨[], 0, 0, some (.InvalidFilter filter)⟩) ∧
    ((filter = "" ∨ filter ∈ filterTokens) →
      ∀ f, (p.List limit offset sort filter direction).err ≠ some (.InvalidFilter f)) ∧
    p.List limit offset sort "nonexistent_category" direction =
      ⟨[], 0, 0, some (.InvalidFilter "nonexistent_category")⟩ := by
  refine ⟨?_, ?_, ?_⟩
  · intro h0 hf
    simp [ProductDB.List, listFilter_invalid _ h0 hf]
  · intro hf f
    obtain ⟨q1, h1⟩ := listFilter_valid (Query.Model.Where .isDeletedFalse) hf
    cases h2 : listSort q1 sort direction with
    | error e =>
      have := listSort_error h2
      simp [ProductDB.List, h1, h2, this]
    | ok q2 =>
      cases h3 : p.read with
      | some e => simp [ProductDB.List, h1, h2, h3]
      | none => simp [ProductDB.List, h1, h2, h3]
  · simp [ProductDB.List, listFilter_invalid _ (show "nonexistent_category" ≠ "" by decide)
      (show "nonexistent_category" ∉ filterTokens by decide)]

/-- The filter `bogus` is rejected, and the empty filter on the sample table is not. -/
theorem List_filter_validation_witness :
    sampleDB.List 10 0 "name" "bogus" "asc" = ⟨[], 0, 0, some (.InvalidFilter "bogus")⟩ ∧
    ∀ f, (sampleDB.List 10 0 "name" "" "asc").err ≠ some (.InvalidFilter f) :=
  ⟨(List_filter_validation sampleDB 10 0 "name" "bogus" "asc").1 (by decide) (by decide),
    (List_filter_validation sampleDB 10 0 "name" "" "asc").2.1 (Or.inl rfl)⟩

/-- C2: with an accepted filter, `List` fails with the invalid-sort error whenever the sort is
non-empty and is neither `name` nor `price`, whatever limit, offset and direction are; and it
does not fail with the invalid-sort error when the sort is empty, `name` or `price`. -/
theorem List_sort_validation (p : ProductDB) (limit offset : Int)
    (sort filter direction : String) (hf : filter = "" ∨ filter ∈ filterTokens) :
    (sort ≠ "" → sort ≠ "name" → sort ≠ "price" →
      p.List limit offset sort filter direction = ⟨[], 0, 0, some (.InvalidSort sort)⟩) ∧
    ((sort = "" ∨ sort = "name" ∨ sort = "price") →
      ∀ s, (p.List limit offset sort filter direction).err ≠ some (.InvalidSort s)) := by
  obtain ⟨q1, h1⟩ := listFilter_valid (Query.Model.Where .isDeletedFalse) hf
  refine ⟨?_, ?_⟩
  · intro h0 hn hp
    simp [ProductDB.List, h1, listSort_invalid q1 direction h0 hn hp]
  · intro hs s
    obtain ⟨q2, h2⟩ := listSort_valid q1 direction hs
    cases h3 : p.read with
    | some e => simp [ProductDB.List, h1, h2, h3]
    | none => simp [ProductDB.List, h1, h2, h3]

/-- The sort `rating` is rejected under the filter `books`, and the sort `price` is not. -/
theorem List_sort_validation_witness :
    sampleDB.List 10 0 "rating" "books" "asc" = ⟨[], 0, 0, some (.InvalidSort "rating")⟩ ∧
    ∀ s, (sampleDB.List 10 0 "price" "books" "asc").err ≠ some (.InvalidSort s) :=
  ⟨(List_sort_validation sampleDB 10 0 "rating" "books" "asc" (Or.inr (by decide))).1
      (by decide) (by decide) (by decide),
    (List_sort_validation sampleDB 10 0 "price" "books" "asc" (Or.inr (by decide))).2
      (Or.inr (Or.inr rfl))⟩

/-- A call of `List` without error returns a page of the filtered set in the order of the
statement, the size of the filtered set, and the offset after the page. -/
theorem List_eq_of_ok {p : ProductDB} {limit offset : Int} {sort filter direction : String}
    (h : (p.List limit offset sort filter direction).err = none) :
    p.List limit offset sort filter direction =
      ⟨if limit < 0 then (listRows p.products sort filter direction).drop offset.toNat
        else ((listRows p.products sort filter direction).drop offset.toNat).take limit.toNat,
       ((p.products.filter (inFilteredSet filter)).length : Nat),
       offset + ((if limit < 0 then (listRows p.products sort filter direction).drop offset.toNat
        else ((listRows p.products sort filter direction).drop offset.toNat).take
          limit.toNat).length : Nat),
       none⟩ := by
  obtain ⟨q1, q2, h1, h2, -, h3⟩ := List_of_ok h
  obtain ⟨-, ho1, hl1, hf1, hsel1⟩ := listFilter_ok h1
  obtain ⟨-, hw2, hl2, hf2, ho2⟩ := listSort_ok h2
  have hsel : q2.selects = inFilteredSet filter := by
    funext r
    have : q2.selects r = q1.selects r := by simp [Query.selects, hw2]
    rw [this, hsel1 r]
    simp [Query.selects, Query.Where, Query.Model, Cond.eval, inFilteredSet]
  have hord : q2.orders ++ [⟨.updated_at, true⟩, ⟨.id, false⟩] = listOrders sort direction := by
    rw [ho2, ho1]
    simp [Query.Where, Query.Model, listOrders]
  have hoff : q2.offset = none := by
    rw [hf2, hf1]
    rfl
  rw [h3, Find_listPage q2 limit offset p.products hoff, hord, hsel]
  simp [Query.Count, hsel, listRows]

theorem orderLE_listOrders_name (direction : String) (a b : Product) :
    orderLE (listOrders "name" direction) a b = true ↔ listOrder "name" direction a b := by
  have hn : ∀ x y : Product, x.name < y.name ↔ x.name.data < y.name.data :=
    fun _ _ => String.lt_iff_toList_lt
  by_cases hd : direction = "desc"
  · simp only [listOrders, orderLE, OrderBy.before, Column.before, listOrder, sortBefore,
      keyBefore, hd, hn, if_true, decide_True, if_pos, List.singleton_append]
    split_ifs <;> simp_all <;> omega
  · simp only [listOrders, orderLE, OrderBy.before, Column.before, listOrder, sortBefore,
      keyBefore, hd, hn, if_true, decide_False, if_false, List.singleton_append]
    split_ifs <;> simp_all <;> omega

theorem orderLE_listOrders_price (direction : String) (a b : Product) :
    orderLE (listOrders "price" direction) a b = true ↔ listOrder "price" direction a b := by
  have h1 : ¬ ("price" = "name") := by decide
  by_cases hd : direction = "desc"
  · simp only [listOrders, orderLE, OrderBy.before, Column.before, listOrder, sortBefore,
      keyBefore, hd, h1, if_true, decide_True, if_pos, if_false, List.singleton_append]
    split_ifs <;> simp_all <;> omega
  · simp only [listOrders, orderLE, OrderBy.before, Column.before, listOrder, sortBefore,
      keyBefore, hd, h1, if_true, decide_False, if_false, List.singleton_append]
    split_ifs <;> simp_all <;> omega

theorem orderLE_listOrders_other (sort direction : String) (a b : Product)
    (h1 : sort ≠ "name") (h2 : sort ≠ "price") :
    orderLE (listOrders sort direction) a b = true ↔ listOrder sort direction a b := by
  have hlo : listOrders sort direction = [⟨.updated_at, true⟩, ⟨.id, false⟩] := by
    simp [listOrders, h1, h2]
  have hk : ∀ x y : Product, keyBefore sort x y ↔ False := by
    intro x y
    simp [keyBefore, h1, h2]
  rw [hlo]
  simp only [orderLE, OrderBy.before, Column.before, listOrder, sortBefore, hk, ite_self,
    if_true, if_false, decide_eq_true_eq, Bool.false_eq_true, false_or, not_false_eq_true,
    true_and]
  split_ifs <;> simp_all <;> omega

/-- The order the statement of `List` sorts by is the order of the specification. -/
theorem orderLE_listOrders (sort direction : String) (a b : Product) :
    orderLE (listOrders sort direction) a b = true ↔ listOrder sort direction a b := by
  by_cases h1 : sort = "name"
  · subst h1
    exact orderLE_listOrders_name direction a b
  · by_cases h2 : sort = "price"
    · subst h2
      exact orderLE_listOrders_price direction a b
    · exact orderLE_listOrders_other sort direction a b h1 h2

theorem listRows_perm (rows : List Product) (sort filter direction : String) :
    (listRows rows sort filter direction).Perm (rows.filter (inFilteredSet filter)) :=
  sortRows_perm _ _

theorem listRows_pairwise (rows : List Product) (sort filter direction : String) :
    (listRows rows sort filter direction).Pairwise (listOrder sort direction) :=
  (sortRows_pairwise _ (orderLE_total _) (orderLE_trans _) _).imp
    fun h => (orderLE_listOrders sort direction _ _).1 h

/-- The page of a call of `List` without error is a part of the ordered filtered set. -/
theorem List_products_sublist {p : ProductDB} {limit offset : Int}
    {sort filter direction : String}
    (h : (p.List limit offset sort filter direction).err = none) :
    (p.List limit offset sort filter direction).products.Sublist
      (listRows p.products sort filter direction) := by
  rw [List_eq_of_ok h]
  simp only
  split
  · exact List.drop_sublist _ _
  · exact (List.take_sublist _ _).trans (List.drop_sublist _ _)

/-- C3: a call of `List` without error returns as total the number of non-deleted rows the
filter selects (all of them for the empty filter, those of the category for a category, those
with inventory above zero for `in_stock`), whatever limit and offset are, and as next offset
the offset plus the number of products returned.  On a table with 15 in-stock non-deleted
products, limit 10, offset 0, sort `price`, filter `in_stock`, direction `asc` give 10
products, total 15 and next offset 10. -/
theorem List_total_nextOffset (p : ProductDB) (limit offset : Int)
    (sort filter direction : String)
    (h : (p.List limit offset sort filter direction).err = none) :
    (p.List limit offset sort filter direction).total =
        ((p.products.filter (inFilteredSet filter)).length : Nat) ∧
    (p.List limit offset sort filter direction).nextOffset =
        offset + ((p.List limit offset sort filter direction).products.length : Nat) ∧
    (p.read = none → (p.products.filter (inFilteredSet "in_stock")).length = 15 →
      (p.List 10 0 "price" "in_stock" "asc").err = none ∧
      (p.List 10 0 "price" "in_stock" "asc").products.length = 10 ∧
      (p.List 10 0 "price" "in_stock" "asc").total = 15 ∧
      (p.List 10 0 "price" "in_stock" "asc").nextOffset = 10) := by
  refine ⟨?_, ?_, ?_⟩
  · rw [List_eq_of_ok h]
  · rw [List_eq_of_ok h]
  · intro hr h15
    have hok : (p.List 10 0 "price" "in_stock" "asc").err = none :=
      List_err_none p 10 0 "price" "in_stock" "asc" hr (Or.inr (by decide))
        (Or.inr (Or.inr rfl))
    have hlen : (listRows p.products "price" "in_stock" "asc").length = 15 := by
      rw [(listRows_perm _ _ _ _).length_eq, h15]
    refine ⟨hok, ?_⟩
    rw [List_eq_of_ok hok]
    simp [hlen, h15]

/-- On a table of 16 rows, 15 of them in stock, the first page of 10 by price has 10 products,
total 15 and next offset 10. -/
theorem List_total_nextOffset_witness :
    (stockDB.List 10 0 "price" "in_stock" "asc").err = none ∧
    (stockDB.List 10 0 "price" "in_stock" "asc").products.length = 10 ∧
    (stockDB.List 10 0 "price" "in_stock" "asc").total = 15 ∧
    (stockDB.List 10 0 "price" "in_stock" "asc").nextOffset = 10 :=
  (List_total_nextOffset stockDB 10 0 "price" "in_stock" "asc" (by decide)).2.2 rfl
    (by decide)

/-- C4: the products of a call of `List` without error are in the order of the specification:
the requested sort key first when the sort is non-empty (ascending unless the direction is
exactly `desc`), then `updated_at` descending, then `id` ascending; with an empty sort the
order is `updated_at` descending, then `id` ascending. -/
theorem List_products_ordered (p : ProductDB) (limit offset : Int)
    (sort filter direction : String)
    (h : (p.List limit offset sort filter direction).err = none) :
    (p.List limit offset sort filter direction).products.Pairwise (listOrder sort direction) :=
  (listRows_pairwise _ _ _ _).sublist (List_products_sublist h)

/-- The page of the sample table sorted by name is in order. -/
theorem List_products_ordered_witness :
    (sampleDB.List 10 0 "name" "" "DESC").products.Pairwise (listOrder "name" "DESC") :=
  List_products_ordered sampleDB 10 0 "name" "" "DESC" (by decide)

/-- C5: no product a call of `List` without error returns is deleted, and every product it
returns satisfies the filter: its category is the filter for a category value, its inventory is
above zero for `in_stock`. -/
theorem List_products_filtered (p : ProductDB) (limit offset : Int)
    (sort filter direction : String)
    (h : (p.List limit offset sort filter direction).err = none) :
    ∀ r ∈ (p.List limit offset sort filter direction).products,
      r ∈ p.products ∧ r.is_deleted = false ∧
      (filter ∈ categoryValues → r.category = filter) ∧
      (filter = "in_stock" → r.inventory > 0) := by
  intro r hr
  have hmem := (listRows_perm _ _ _ _).subset ((List_products_sublist h).subset hr)
  rw [List.mem_filter] at hmem
  obtain ⟨hin, hset⟩ := hmem
  simp only [inFilteredSet, Bool.and_eq_true, Bool.not_eq_true'] at hset
  refine ⟨hin, hset.1, ?_, ?_⟩
  · intro hc
    have h0 : filter ≠ "" := by
      intro h0
      subst h0
      exact absurd hc (by decide)
    have hs : filter ≠ "in_stock" := by
      intro h0
      subst h0
      exact absurd hc (by decide)
    simpa [h0, hs] using hset.2
  · intro hs
    subst hs
    simpa using hset.2

/-- Every product the filter `books` returns from the sample table is a book that is not
deleted. -/
theorem List_products_filtered_witness :
    (sampleDB.List 10 0 "" "books" "").err = none ∧
    ∀ r ∈ (sampleDB.List 10 0 "" "books" "").products,
      r ∈ sampleDB.products ∧ r.is_deleted = false ∧
      ("books" ∈ categoryValues → r.category = "books") ∧
      ("books" = "in_stock" → r.inventory > 0) :=
  ⟨by decide, List_products_filtered sampleDB 10 0 "" "books" "" (by decide)⟩

/-! ## Pagination -/

/-- Two lists with the same rows, both in order, are the same list when the order separates any
two different rows of them. -/
theorem eq_of_perm_of_pairwise {r : Product → Product → Prop} :
    ∀ {l₁ l₂ : List Product}, l₁.Perm l₂ → l₁.Pairwise r → l₂.Pairwise r →
      (∀ a ∈ l₁, ∀ b ∈ l₁, r a b → r b a → a = b) → l₁ = l₂
  | [], l₂, hp, _, _, _ => hp.nil_eq
  | a :: t, [], hp, _, _, _ => absurd hp.symm.nil_eq (by simp)
  | a :: t, b :: t₂, hp, h1, h2, anti => by
    have hab : a = b := by
      by_cases hne : a = b
      · exact hne
      · have ha : a ∈ t₂ := by
          rcases List.mem_cons.1 (hp.subset (List.mem_cons_self a t)) with h | h
          · exact absurd h hne
          · exact h
        have hb : b ∈ t := by
          rcases List.mem_cons.1 (hp.symm.subset (List.mem_cons_self b t₂)) with h | h
          · exact absurd h.symm hne
          · exact h
        exact anti a (List.mem_cons_self a t) b (List.mem_cons_of_mem a hb)
          ((List.pairwise_cons.1 h1).1 b hb) ((List.pairwise_cons.1 h2).1 a ha)
    subst hab
    have ht : t = t₂ :=
      eq_of_perm_of_pairwise hp.cons_inv (List.pairwise_cons.1 h1).2 (List.pairwise_cons.1 h2).2
        fun x hx y hy => anti x (List.mem_cons_of_mem a hx) y (List.mem_cons_of_mem a hy)
    rw [ht]

/-- Two rows the order of `List` puts each before the other have the same id. -/
theorem listOrder_antisymm_id (sort direction : String) (a b : Product)
    (hab : listOrder sort direction a b) (hba : listOrder sort direction b a) : a.id = b.id := by
  have hasymm : ∀ x y : Product, sortBefore sort direction x y →
      ¬ sortBefore sort direction y x := by
    intro x y
    unfold sortBefore keyBefore
    split_ifs <;> first | exact fun h => lt_asymm h | exact fun h => h.elim
  unfold listOrder at hab hba
  rcases hab with h | ⟨h1, h2⟩
  · rcases hba with h' | ⟨h1', -⟩
    · exact absurd h' (hasymm _ _ h)
    · exact absurd h h1'
  · rcases hba with h' | ⟨-, h2'⟩
    · exact absurd h' h1
    · omega

/-- With distinct ids, the ordered filtered set does not depend on the order the table keeps its
rows in. -/
theorem listRows_of_perm {rows rows' : List Product} (sort filter direction : String)
    (hid : (rows.map fun r => r.id).Nodup) (hp : rows'.Perm rows) :
    listRows rows' sort filter direction = listRows rows sort filter direction := by
  apply eq_of_perm_of_pairwise
    (((listRows_perm rows' sort filter direction).trans (hp.filter _)).trans
      (listRows_perm rows sort filter direction).symm)
    (listRows_pairwise _ _ _ _) (listRows_pairwise _ _ _ _)
  intro a ha b hb hab hba
  have hmem : ∀ x ∈ listRows rows' sort filter direction, x ∈ rows := fun x hx =>
    hp.subset (List.mem_filter.1 ((listRows_perm rows' sort filter direction).subset hx)).1
  exact List.inj_on_of_nodup_map hid (hmem a ha) (hmem b hb)
    (listOrder_antisymm_id sort direction a b hab hba)

/-- A call of `List` at a natural offset with a positive limit, on a repository that holds the
rows of `rows` in any order: the page is the next `limit` rows of the ordered filtered set. -/
theorem List_page {rows : List Product} (p : ProductDB) (limit : Int) (o : Nat)
    (sort filter direction : String)
    (hid : (rows.map fun r => r.id).Nodup) (hr : p.read = none) (hp : p.products.Perm rows)
    (hf : filter = "" ∨ filter ∈ filterTokens) (hs : sort = "" ∨ sort = "name" ∨ sort = "price")
    (hl : 0 < limit) :
    p.List limit o sort filter direction =
      ⟨((listRows rows sort filter direction).drop o).take limit.toNat,
        ((p.products.filter (inFilteredSet filter)).length : Nat),
        (o : Int) + ((((listRows rows sort filter direction).drop o).take limit.toNat).length : Nat),
        none⟩ := by
  have hok := List_err_none p limit o sort filter direction hr hf hs
  rw [List_eq_of_ok hok, listRows_of_perm sort filter direction hid hp]
  have hl' : ¬ limit < 0 := by omega
  simp [hl']

/-- The loop of `listAll`, started at a natural offset with enough calls allowed, stops and
returns the rest of the ordered filtered set. -/
theorem listAll_drop {rows : List Product} (scan : Nat → ProductDB) (limit : Int)
    (sort filter direction : String)
    (hid : (rows.map fun r => r.id).Nodup)
    (hscan : ∀ k, (scan k).read = none ∧ (scan k).products.Perm rows)
    (hf : filter = "" ∨ filter ∈ filterTokens) (hs : sort = "" ∨ sort = "name" ∨ sort = "price")
    (hl : 0 < limit) :
    ∀ (fuel call o : Nat), (listRows rows sort filter direction).length - o < fuel →
      ∃ pages, listAll scan limit sort filter direction fuel call o = some pages ∧
        pages.flatten = (listRows rows sort filter direction).drop o := by
  intro fuel
  induction fuel with
  | zero => intro call o h; omega
  | succ fuel ih =>
    intro call o h
    have hpage := List_page (scan call) limit o sort filter direction hid (hscan call).1
      (hscan call).2 hf hs hl
    unfold listAll
    rw [hpage]
    simp only
    have hlen : (((listRows rows sort filter direction).drop o).take limit.toNat).length =
        min limit.toNat ((listRows rows sort filter direction).length - o) := by
      simp
    by_cases hlt : ((((listRows rows sort filter direction).drop o).take limit.toNat).length : Int)
        < limit
    · rw [if_pos hlt]
      refine ⟨_, rfl, ?_⟩
      have hle : ((listRows rows sort filter direction).drop o).length ≤ limit.toNat := by
        rw [List.length_drop]
        omega
      simp [List.take_of_length_le hle]
    · rw [if_neg hlt]
      have hfull : (((listRows rows sort filter direction).drop o).take limit.toNat).length =
          limit.toNat := by omega
      have hnext : (o : Int) + ((((listRows rows sort filter direction).drop o).take
          limit.toNat).length : Nat) = ((o + limit.toNat : Nat) : Int) := by
        rw [hfull]
        push_cast
        rfl
      rw [hnext]
      obtain ⟨pages, hpages, hflat⟩ := ih (call + 1) (o + limit.toNat) (by omega)
      rw [hpages]
      refine ⟨_, rfl, ?_⟩
      rw [List.flatten_cons, hflat, ← List.drop_drop, List.take_append_drop]

/-- C6: on a table with distinct ids, with an accepted filter, sort and direction and a positive
limit, calling `List` from offset 0 and passing each call's next offset to the next call until a
call returns fewer than `limit` rows stops and yields pages whose concatenation holds every row
of the filtered non-deleted set exactly once, even when the engine presents the rows of the
table to each call in a different order. -/
theorem List_pagination_partition (rows : List Product) (scan : Nat → ProductDB) (limit : Int)
    (sort filter direction : String)
    (hid : (rows.map fun r => r.id).Nodup)
    (hscan : ∀ k, (scan k).read = none ∧ (scan k).products.Perm rows)
    (hf : filter = "" ∨ filter ∈ filterTokens) (hs : sort = "" ∨ sort = "name" ∨ sort = "price")
    (hl : 0 < limit) (fuel : Nat) (hfuel : rows.length < fuel) :
    ∃ pages, listAll scan limit sort filter direction fuel 0 0 = some pages ∧
      pages.flatten.Perm (rows.filter (inFilteredSet filter)) ∧ pages.flatten.Nodup ∧
      ∀ r, pages.flatten.count r = if r ∈ rows ∧ inFilteredSet filter r = true then 1 else 0 := by
  have hlen : (listRows rows sort filter direction).length ≤ rows.length := by
    rw [(listRows_perm _ _ _ _).length_eq]
    exact List.length_filter_le _ _
  obtain ⟨pages, hpages, hflat⟩ := listAll_drop scan limit sort filter direction hid hscan hf hs
    hl fuel 0 0 (by omega)
  rw [List.drop_zero] at hflat
  have hperm : pages.flatten.Perm (rows.filter (inFilteredSet filter)) := by
    rw [hflat]
    exact listRows_perm _ _ _ _
  have hnodup : pages.flatten.Nodup :=
    hperm.nodup_iff.2 ((List.Nodup.of_map _ hid).filter _)
  refine ⟨pages, by simpa using hpages, hperm, hnodup, ?_⟩
  intro r
  by_cases hr : r ∈ rows ∧ inFilteredSet filter r = true
  · rw [if_pos hr]
    exact List.count_eq_one_of_mem hnodup (hperm.symm.subset (List.mem_filter.2 hr))
  · rw [if_neg hr]
    exact List.count_eq_zero_of_not_mem fun h => hr (List.mem_filter.1 (hperm.subset h))

/-- The sample table read in pages of one row: the loop stops and the pages hold the two rows
that are not deleted, once each. -/
theorem List_pagination_partition_witness :
    ∃ pages, listAll (fun _ => sampleDB) 1 "price" "" "asc" 4 0 0 = some pages ∧
      pages.flatten.Perm (sampleDB.products.filter (inFilteredSet "")) ∧ pages.flatten.Nodup ∧
      ∀ r, pages.flatten.count r =
        if r ∈ sampleDB.products ∧ inFilteredSet "" r = true then 1 else 0 :=
  List_pagination_partition sampleDB.products (fun _ => sampleDB) 1 "price" "" "asc"
    (by decide) (fun _ => ⟨rfl, List.Perm.refl _⟩) (Or.inl rfl) (Or.inr (Or.inr rfl))
    (by decide) 4 (by decide)

/-! ## The writes -/

theorem selects_idEq (id : Int) (r : Product) :
    (Query.Model.Where (.idEq id)).selects r = (r.id == id) := by
  simp [Query.selects, Query.Where, Query.Model, Cond.eval]

/-- What `Update(column, value)` with the condition `id = ?` does to the table. -/
theorem Update_idEq (id : Int) (a : Assignment) (now : Int) (rows : List Product) :
    (Query.Model.Where (.idEq id)).Update a now rows =
      (rows.map fun r => if r.id = id then { a.apply r with updated_at := now } else r,
        (((rows.filter fun r => r.id == id).length : Nat) : Int)) := by
  have h : (Query.Model.Where (.idEq id)).selects = fun r => r.id == id :=
    funext (selects_idEq id)
  simp [Query.Update, Query.Exec, h, Assignment.apply]

theorem count_idEq_eq_zero (id : Int) (rows : List Product) :
    (((rows.filter fun r => r.id == id).length : Nat) : Int) = 0 ↔
      ¬ ∃ r ∈ rows, r.id = id := by
  simp [List.length_eq_zero]

/-- C7: at a payload whose id matches a row, on working handles, `Update` changes the row and
re-reads it, and returns a nil product with a nil error: the re-read row is written to the
caller's struct, and the returned variable is never assigned.  `Update` returns a nil product on
every input. -/
theorem Update_returns_nil :
    (∀ (p : ProductDB) (product : Product), (p.Update product).updatedProduct = none) ∧
    (sampleDB.Update samplePatch).err = none ∧
    (sampleDB.Update samplePatch).updatedProduct = none ∧
    (sampleDB.Update samplePatch).db.products =
      [{ sampleBook with price := 900 }, sampleToy, sampleGone] ∧
    (sampleDB.Update samplePatch).product = { sampleBook with price := 900 } := by
  refine ⟨?_, by decide, by decide, by decide, by decide⟩
  intro p product
  unfold ProductDB.Update
  cases p.write with
  | some e => rfl
  | none =>
    simp only
    split
    · rfl
    · cases p.read with
      | some e => rfl
      | none =>
        simp only
        split <;> rfl

/-- What `Delete` does on a working write handle. -/
theorem Delete_eq (p : ProductDB) (id : Int) (hw : p.write = none) :
    p.Delete id =
      if ∃ r ∈ p.products, r.id = id then
        ⟨none, { p with products := p.products.map fun r =>
          if r.id = id then { r with is_deleted := true, updated_at := p.now } else r }⟩
      else
        ⟨some .ErrRecordNotFound, { p with products := p.products.map fun r =>
          if r.id = id then { r with is_deleted := true, updated_at := p.now } else r }⟩ := by
  unfold ProductDB.Delete
  rw [hw]
  simp only [Update_idEq, count_idEq_eq_zero, Assignment.apply]
  by_cases h : ∃ r ∈ p.products, r.id = id
  · rw [if_neg (not_not.2 h), if_pos h]
  · rw [if_pos h, if_neg h]

/-- The second `Delete` of a row that exists and is not deleted returns no error. -/
theorem Delete_twice_counterexample :
    sampleBook ∈ sampleDB.products ∧ sampleBook.id = 1 ∧ sampleBook.is_deleted = false ∧
    (sampleDB.Delete 1).err = none ∧
    ((sampleDB.Delete 1).db.Delete 1).err = none ∧
    ((sampleDB.Delete 1).db.Delete 1).err ≠ some .ErrRecordNotFound := by
  decide

/-- C8, as amended: on a working write handle, for every id of an existing row, the first
`Delete` returns no error and leaves every row of that id with `is_deleted = true`, and a second
`Delete` right after it returns no error either and leaves the row deleted, since the statement
selects the row by id alone; `Delete` returns the not-found error, and changes no row, when no
row has the id. -/
theorem Delete_twice (p : ProductDB) (id : Int) (hw : p.write = none) :
    ((∃ r ∈ p.products, r.id = id) →
      (p.Delete id).err = none ∧
      (∀ r ∈ (p.Delete id).db.products, r.id = id → r.is_deleted = true) ∧
      ((p.Delete id).db.Delete id).err = none ∧
      (∀ r ∈ ((p.Delete id).db.Delete id).db.products, r.id = id → r.is_deleted = true)) ∧
    ((¬ ∃ r ∈ p.products, r.id = id) →
      (p.Delete id).err = some .ErrRecordNotFound ∧ (p.Delete id).db.products = p.products) := by
  refine ⟨?_, ?_⟩
  · intro hex
    have h1 : p.Delete id = ⟨none, { p with products := p.products.map fun r =>
        if r.id = id then { r with is_deleted := true, updated_at := p.now } else r }⟩ := by
      rw [Delete_eq p id hw, if_pos hex]
    have hex2 : ∃ r ∈ (p.Delete id).db.products, r.id = id := by
      obtain ⟨r, hr, hrid⟩ := hex
      refine ⟨{ r with is_deleted := true, updated_at := p.now }, ?_, hrid⟩
      rw [h1]
      exact List.mem_map.2 ⟨r, hr, by simp [hrid]⟩
    have hw2 : (p.Delete id).db.write = none := by rw [h1]; exact hw
    have hdel : ∀ r ∈ (p.Delete id).db.products, r.id = id → r.is_deleted = true := by
      rw [h1]
      intro r hr hrid
      obtain ⟨r0, -, hr0⟩ := List.mem_map.1 hr
      by_cases h0 : r0.id = id
      · rw [if_pos h0] at hr0
        rw [← hr0]
      · rw [if_neg h0] at hr0
        rw [hr0] at h0
        exact absurd hrid h0
    refine ⟨by rw [h1], hdel, ?_, ?_⟩
    · rw [Delete_eq _ id hw2, if_pos hex2]
    · rw [Delete_eq _ id hw2, if_pos hex2]
      intro r hr hrid
      obtain ⟨r0, -, hr0⟩ := List.mem_map.1 hr
      by_cases h0 : r0.id = id
      · rw [if_pos h0] at hr0
        rw [← hr0]
      · rw [if_neg h0] at hr0
        rw [hr0] at h0
        exact absurd hrid h0
  · intro hno
    rw [Delete_eq p id hw, if_neg hno]
    refine ⟨rfl, ?_⟩
    simp only
    conv_rhs => rw [← List.map_id p.products]
    apply List.map_congr_left
    intro r hr
    have h0 : ¬ r.id = id := fun h => hno ⟨r, hr, h⟩
    simp [h0]

/-- Deleting row 1 of the sample table twice: no error either time. -/
theorem Delete_twice_witness :
    (sampleDB.Delete 1).err = none ∧
    (∀ r ∈ (sampleDB.Delete 1).db.products, r.id = 1 → r.is_deleted = true) ∧
    ((sampleDB.Delete 1).db.Delete 1).err = none ∧
    (∀ r ∈ ((sampleDB.Delete 1).db.Delete 1).db.products, r.id = 1 → r.is_deleted = true) :=
  (Delete_twice sampleDB 1 rfl).1 ⟨sampleBook, by decide, rfl⟩

/-- What `UpdateInventory` does on a working write handle. -/
theorem UpdateInventory_eq (p : ProductDB) (id inventory : Int) (hw : p.write = none) :
    p.UpdateInventory id inventory =
      if ∃ r ∈ p.products, r.id = id then
        ⟨none, { p with products := p.products.map fun r =>
          if r.id = id then { r with inventory := inventory, updated_at := p.now } else r }⟩
      else
        ⟨some .ErrRecordNotFound, { p with products := p.products.map fun r =>
          if r.id = id then { r with inventory := inventory, updated_at := p.now } else r }⟩ := by
  unfold ProductDB.UpdateInventory
  rw [hw]
  simp only [Update_idEq, count_idEq_eq_zero, Assignment.apply]
  by_cases h : ∃ r ∈ p.products, r.id = id
  · rw [if_neg (not_not.2 h), if_pos h]
  · rw [if_pos h, if_neg h]

/-- On the sample table at instant 100, `UpdateInventory` of the toy (id 2, `updated_at` 20)
returns no error and leaves the toy with the new inventory and with `updated_at` 100: a field
other than the inventory has changed, and no row of id 2 keeps the old `updated_at`.  Behind a
write handle that fails, the call for an id no row has returns the storage failure, not the
not-found error. -/
theorem UpdateInventory_updated_at_counterexample :
    sampleToy ∈ sampleDB.products ∧ sampleToy.id = 2 ∧ sampleToy.updated_at = 20 ∧
    (sampleDB.UpdateInventory 2 9).err = none ∧
    (sampleDB.UpdateInventory 2 9).db.products =
      [sampleBook, { sampleToy with inventory := 9, updated_at := 100 }, sampleGone] ∧
    (¬ ∃ r ∈ (sampleDB.UpdateInventory 2 9).db.products,
      r.id = 2 ∧ r.updated_at = sampleToy.updated_at) ∧
    (¬ ∃ r ∈ brokenDB.products, r.id = 7) ∧
    (brokenDB.UpdateInventory 7 9).err = some (.StorageFailure "connection lost") ∧
    (brokenDB.UpdateInventory 7 9).err ≠ some .ErrRecordNotFound := by
  decide

/-- C9, as amended: on a working write handle, for every id and inventory value: if no row has
the id, `UpdateInventory` returns the not-found error and the repository is unchanged, no row
created; if a row has the id, it returns no error, and row by row the table after the call is
the table before it, where a row of that id has the given inventory, has the instant of the call
as its `updated_at`, and has its id, name, description, category, price, `is_deleted` and
`created_at` as before, and a row of another id is unchanged. -/
theorem UpdateInventory_frame (p : ProductDB) (id inventory : Int) (hw : p.write = none) :
    ((¬ ∃ r ∈ p.products, r.id = id) →
      (p.UpdateInventory id inventory).err = some .ErrRecordNotFound ∧
      (p.UpdateInventory id inventory).db = p) ∧
    ((∃ r ∈ p.products, r.id = id) →
      (p.UpdateInventory id inventory).err = none ∧
      (p.UpdateInventory id inventory).db.read = p.read ∧
      (p.UpdateInventory id inventory).db.write = p.write ∧
      List.Forall₂
        (fun r r' =>
          (r.id = id →
            r'.inventory = inventory ∧ r'.updated_at = p.now ∧ r'.id = r.id ∧
            r'.name = r.name ∧ r'.description = r.description ∧ r'.category = r.category ∧
            r'.price = r.price ∧ r'.is_deleted = r.is_deleted ∧
            r'.created_at = r.created_at) ∧
          (r.id ≠ id → r' = r))
        p.products (p.UpdateInventory id inventory).db.products) := by
  refine ⟨?_, ?_⟩
  · intro hno
    rw [UpdateInventory_eq p id inventory hw, if_neg hno]
    refine ⟨rfl, ?_⟩
    have hmap : (p.products.map fun r =>
        if r.id = id then { r with inventory := inventory, updated_at := p.now } else r) =
          p.products := by
      conv_rhs => rw [← List.map_id p.products]
      apply List.map_congr_left
      intro r hr
      have h0 : ¬ r.id = id := fun h => hno ⟨r, hr, h⟩
      simp [h0]
    simp only [hmap]
  · intro hex
    rw [UpdateInventory_eq p id inventory hw, if_pos hex]
    refine ⟨rfl, rfl, rfl, ?_⟩
    simp only
    rw [List.forall₂_map_right_iff, List.forall₂_same]
    intro r _
    by_cases h0 : r.id = id
    · simp [h0]
    · simp [h0]

/-- On the sample table, inventory 9 for id 2 changes the inventory and the update time of the
toy alone, and id 7 is not found. -/
theorem UpdateInventory_frame_witness :
    ((sampleDB.UpdateInventory 7 9).err = some .ErrRecordNotFound ∧
      (sampleDB.UpdateInventory 7 9).db = sampleDB) ∧
    (sampleDB.UpdateInventory 2 9).err = none ∧
    (sampleDB.UpdateInventory 2 9).db.products =
      [sampleBook, { sampleToy with inventory := 9, updated_at := 100 }, sampleGone] :=
  ⟨(UpdateInventory_frame sampleDB 7 9 rfl).1 (by decide),
    ((UpdateInventory_frame sampleDB 2 9 rfl).2 ⟨sampleToy, by decide, rfl⟩).1, by decide⟩

/-! ## `Search` -/

/-- The `WHERE` clause of `Search` holds of the rows that reach a threshold and are not
deleted. -/
theorem searchWhere_iff (similarity : String → String → ℚ)
    (category_to_text : Category → String) (query : String) (r : Product) :
    searchWhere similarity category_to_text query r = true ↔
      searchReaches similarity category_to_text query r := by
  simp only [searchWhere, searchReaches, Bool.and_eq_true, Bool.or_eq_true, decide_eq_true_eq,
    beq_iff_eq, or_assoc]
  exact and_comm

/-- A product whose name has similarity exactly one tenth to the query, and whose other scores
are 0, is returned by `Search` although no score exceeds its threshold. -/
theorem Search_threshold_counterexample :
    sampleSimilarity sampleBook.name "map" = 1 / 10 ∧
    sampleBook ∈ (sampleDB.Search sampleSimilarity id "map").products ∧
    ¬ searchExceeds sampleSimilarity id "map" sampleBook := by
  refine ⟨?_, ?_, ?_⟩
  · simp [sampleSimilarity, sampleBook]
  · have hw : searchWhere sampleSimilarity id "map" sampleBook = true := by
      rw [searchWhere_iff]
      refine ⟨rfl, Or.inl ?_⟩
      simp [sampleSimilarity, sampleBook]
    unfold ProductDB.Search
    simp only [sampleDB]
    rw [mem_sortRows, List.mem_filter]
    exact ⟨List.mem_cons_self _ _, hw⟩
  · have h1 : ¬ ("atlas" = "map") := by decide
    have h2 : ¬ ("maps of the world" = "map") := by decide
    have h3 : ¬ ("maps of the world" = "atlas") := by decide
    have h4 : ¬ ("books" = "map") := by decide
    have h5 : ¬ ("books" = "atlas") := by decide
    unfold searchExceeds
    simp only [sampleSimilarity, sampleBook, id, h1, h2, h3, h4, h5, if_false, if_true]
    norm_num

/-- C10, as amended: on a working read handle, for every query and table, with the similarity
an externally supplied score, `Search` returns exactly the rows with `is_deleted = false` for
which the similarity of the query to the name is at least 0.1, or to the description is at least
0.1, or to the text of the category is at least 0.4; a deleted row is never returned, whatever
its scores, and a row whose name and description scores are below 0.1 is returned only with a
category score of at least 0.4. -/
theorem Search_rows (similarity : String → String → ℚ) (category_to_text : Category → String)
    (p : ProductDB) (query : String) (hr : p.read = none) :
    (p.Search similarity category_to_text query).err = none ∧
    (p.Search similarity category_to_text query).products.Perm
      (p.products.filter fun r => decide (searchReaches similarity category_to_text query r)) ∧
    (∀ r ∈ (p.Search similarity category_to_text query).products, r.is_deleted = false) ∧
    (∀ r ∈ (p.Search similarity category_to_text query).products,
      similarity r.name query < 1 / 10 → similarity r.description query < 1 / 10 →
        similarity (category_to_text r.category) query ≥ 4 / 10) := by
  have hfilter : (fun r => decide (searchReaches similarity category_to_text query r)) =
      searchWhere similarity category_to_text query := by
    funext r
    rw [Bool.eq_iff_iff, decide_eq_true_eq, searchWhere_iff]
  have hperm : (p.Search similarity category_to_text query).products.Perm
      (p.products.filter fun r => decide (searchReaches similarity category_to_text query r)) := by
    unfold ProductDB.Search
    rw [hr, hfilter]
    exact sortRows_perm _ _
  have hmem : ∀ r ∈ (p.Search similarity category_to_text query).products,
      searchReaches similarity category_to_text query r := by
    intro r h
    have := (List.mem_filter.1 (hperm.subset h)).2
    simpa using this
  refine ⟨?_, hperm, fun r h => (hmem r h).1, ?_⟩
  · unfold ProductDB.Search
    rw [hr]
  · intro r h hn hd
    rcases (hmem r h).2 with h1 | h1 | h1
    · exact absurd hn (not_lt.2 h1)
    · exact absurd hd (not_lt.2 h1)
    · exact h1

/-- On the sample table the query `map` returns the rows that reach a threshold. -/
theorem Search_rows_witness :
    (sampleDB.Search sampleSimilarity id "map").err = none ∧
    (sampleDB.Search sampleSimilarity id "map").products.Perm
      (sampleDB.products.filter fun r => decide (searchReaches sampleSimilarity id "map" r)) ∧
    (∀ r ∈ (sampleDB.Search sampleSimilarity id "map").products, r.is_deleted = false) ∧
    (∀ r ∈ (sampleDB.Search sampleSimilarity id "map").products,
      sampleSimilarity r.name "map" < 1 / 10 → sampleSimilarity r.description "map" < 1 / 10 →
        sampleSimilarity (id r.category) "map" ≥ 4 / 10) :=
  Search_rows sampleSimilarity id sampleDB "map" rfl

end Storage
